import Mathlib

/-!
Verification of the Interactive Overlay and Version-History Engine of the
INTake-to-Insight repository.  The definitions below are a shallow embedding
of the overlay store, drag-session, history-navigation and export-compositing
logic found in src/components/DashboardCanvas.tsx and
src/components/Editor.tsx.  JavaScript numbers are modelled as rationals,
JavaScript Array.prototype.findIndex as an Option-valued search, and the
canvas 2d drawing calls as a list of draw operations.
-/

namespace IntakeToInsight

/-- Positioned text label overlaid on the canvas (src/types.ts, interface
called Annotation).  The x and y fields are percentages; fontWeight and
fontStyle are optional in the TypeScript interface, hence Option here. -/
structure Annotation where
  id : String
  x : ℚ
  y : ℚ
  text : String
  color : String
  fontSize : ℚ
  fontWeight : Option String
  fontStyle : Option String
  deriving DecidableEq

/-- Positioned discussion-thread anchor (src/types.ts, interface Comment). -/
structure Comment where
  id : String
  x : ℚ
  y : ℚ
  text : String
  author : String
  resolved : Bool
  timestamp : ℤ
  deriving DecidableEq

/-- One produced image revision (src/types.ts, interface GeneratedImage).
The level and style union types are modelled as strings. -/
structure GeneratedImage where
  id : String
  data : String
  prompt : String
  timestamp : ℤ
  level : String
  style : String
  deriving DecidableEq

/-- JavaScript Array.prototype.findIndex, with none standing for the -1
result. -/
def findIndex (p : α → Bool) : List α → Option Nat
  | [] => none
  | a :: l => if p a then some 0 else (findIndex p l).map (· + 1)

/-- The destructuring swap of the entries at positions i and i+1 used by
moveForward and moveBackward in src/components/DashboardCanvas.tsx.  Indices
past the end leave the list unchanged; the component only performs the swap
in range, guarded by its index checks. -/
def swapAdj : List α → Nat → List α
  | a :: b :: rest, 0 => b :: a :: rest
  | x :: rest, n + 1 => x :: swapAdj rest n
  | l, _ => l

/-- bringToFront from src/components/DashboardCanvas.tsx: find the first
index whose id matches; return unchanged when not found or already last;
otherwise splice the entry out and push it onto the end. -/
def bringToFront (id : String) (annotations : List Annotation ) :
    List Annotation :=
  match findIndex (fun a => a.id == id) annotations with
  | none => annotations
  | some i =>
    if i + 1 = annotations.length then annotations
    else
      match annotations.get? i with
      | some item => annotations.eraseIdx i ++ [item]
      | none => annotations

/-- moveForward from src/components/DashboardCanvas.tsx: swap the matching
entry with its immediate successor; no-op when not found or already last. -/
def moveForward (id : String) (annotations : List Annotation ) :
    List Annotation :=
  match findIndex (fun a => a.id == id) annotations with
  | none => annotations
  | some i =>
    if i + 1 = annotations.length then annotations
    else swapAdj annotations i

/-- moveBackward from src/components/DashboardCanvas.tsx: swap the matching
entry with its immediate predecessor; no-op when the index is -1 or 0 (the
JavaScript guard index <= 0). -/
def moveBackward (id : String) (annotations : List Annotation ) :
    List Annotation :=
  match findIndex (fun a => a.id == id) annotations with
  | none => annotations
  | some 0 => annotations
  | some (i + 1) => swapAdj annotations i

/-- sendToBack from src/components/DashboardCanvas.tsx: splice the matching
entry out and unshift it onto the front; no-op when not found or already
first. -/
def sendToBack (id : String) (annotations : List Annotation ) :
    List Annotation :=
  match findIndex (fun a => a.id == id) annotations with
  | none => annotations
  | some 0 => annotations
  | some (i + 1) =>
    match annotations.get? (i + 1) with
    | some item => item :: annotations.eraseIdx (i + 1)
    | none => annotations

/-- Partial update record, the Partial Annotation argument of
updateAnnotation; a none field is absent from the update object. -/
structure AnnotationUpdates where
  id : Option String := none
  x : Option ℚ := none
  y : Option ℚ := none
  text : Option String := none
  color : Option String := none
  fontSize : Option ℚ := none
  fontWeight : Option String := none
  fontStyle : Option String := none
  deriving DecidableEq

/-- The object-spread merge performed by updateAnnotation: fields present in
the update object replace the annotation's fields, absent fields keep the
old value. -/
def applyUpdates (a : Annotation ) (u : AnnotationUpdates) : Annotation :=
  { id := u.id.getD a.id
    x := u.x.getD a.x
    y := u.y.getD a.y
    text := u.text.getD a.text
    color := u.color.getD a.color
    fontSize := u.fontSize.getD a.fontSize
    fontWeight := match u.fontWeight with | some w => some w | none => a.fontWeight
    fontStyle := match u.fontStyle with | some s => some s | none => a.fontStyle }

/-- updateAnnotation from src/components/DashboardCanvas.tsx: map over the
list, merging the update object into every entry whose id matches. -/
def updateAnnotation (annotations : List Annotation ) (id : String)
    (u : AnnotationUpdates) : List Annotation :=
  annotations.map (fun a => if a.id == id then applyUpdates a u else a)

/-- deleteAnnotation from src/components/DashboardCanvas.tsx: keep every
entry whose id differs. -/
def deleteAnnotation (annotations : List Annotation ) (id : String) :
    List Annotation :=
  annotations.filter (fun a => !(a.id == id))

/-- The slice of src/components/Editor.tsx state that handleJumpToHistory
reads and writes. -/
structure EditorHistoryState where
  history : List GeneratedImage
  currentIndex : ℤ
  style : String
  level : String
  deriving DecidableEq

/-- handleJumpToHistory from src/components/Editor.tsx: the cursor is set to
the given index unconditionally; afterwards, when an entry exists at that
index, its style and level are restored. -/
def handleJumpToHistory (s : EditorHistoryState) (index : ℤ) :
    EditorHistoryState :=
  let s1 := { s with currentIndex := index }
  match if 0 ≤ index then s.history.get? index.toNat else none with
  | some entry => { s1 with style := entry.style, level := entry.level }
  | none => s1

/-- The JavaScript falsiness test on objective.trim(): the trimmed string
is empty exactly when every character of the string is whitespace. -/
def jsTrimIsEmpty (s : String) : Bool :=
  s.data.all fun c => c.isWhitespace

/-- The history push performed by handleGenerate in src/components/Editor.tsx.
When the guard rejects (already loading, or the objective is blank after
trimming) the handler returns early and nothing is produced; otherwise the
new image is prepended to the history and the cursor is reset to 0. -/
def handleGenerate (isLoading : Bool) (objective : String)
    (history : List GeneratedImage) (currentIndex : ℤ)
    (newImage : GeneratedImage) : List GeneratedImage × ℤ :=
  if isLoading || jsTrimIsEmpty objective then (history, currentIndex)
  else (newImage :: history, 0)

/-- The history push performed by handleEdit in src/components/Editor.tsx:
early return on empty history; otherwise the entry at the cursor is copied
with a fresh id, the edited image data, the edit prompt and a new timestamp,
prepended, and the cursor reset to 0.  When no entry exists at the cursor
the member access throws, the error is caught, and the history is left
unchanged: the none branch models that path. -/
def handleEdit (history : List GeneratedImage) (currentIndex : ℤ)
    (editPrompt : String) (base64 : String) (newId : String) (now : ℤ) :
    List GeneratedImage × ℤ :=
  if history.length = 0 then (history, currentIndex)
  else
    match if 0 ≤ currentIndex then history.get? currentIndex.toNat else none with
    | some cur =>
      ({ cur with id := newId, data := base64, prompt := editPrompt,
                  timestamp := now } :: history, 0)
    | none => (history, currentIndex)

/-- The bounding box cached in dragRectRef at pointer-down. -/
structure Rect where
  width : ℚ
  height : ℚ
  left : ℚ
  top : ℚ
  deriving DecidableEq

/-- Snap grid size in pixels (src/components/DashboardCanvas.tsx). -/
def GRID_SIZE : ℚ := 10

/-- JavaScript Math.round: round half toward positive infinity. -/
def jsRound (q : ℚ) : ℤ := ⌊q + 1 / 2⌋

/-- The position computation of handlePointerMove in
src/components/DashboardCanvas.tsx: convert the start percentage to pixels
against the cached rect, add the pointer delta, snap each axis to the
nearest multiple of GRID_SIZE, convert back to a percentage and clamp to
the interval from 0 to 100. -/
def pointerMovePosition (rect : Rect) (initialAnnPos : ℚ × ℚ)
    (dragStart : ℚ × ℚ) (client : ℚ × ℚ) : ℚ × ℚ :=
  let initialPixelX := initialAnnPos.1 / 100 * rect.width
  let initialPixelY := initialAnnPos.2 / 100 * rect.height
  let deltaX := client.1 - dragStart.1
  let deltaY := client.2 - dragStart.2
  let rawX := initialPixelX + deltaX
  let rawY := initialPixelY + deltaY
  let snappedX : ℚ := (jsRound (rawX / GRID_SIZE) : ℚ) * GRID_SIZE
  let snappedY : ℚ := (jsRound (rawY / GRID_SIZE) : ℚ) * GRID_SIZE
  let newX := max 0 (min 100 (snappedX / rect.width * 100))
  let newY := max 0 (min 100 (snappedY / rect.height * 100))
  (newX, newY)

/-- The drag-session slice of src/components/DashboardCanvas.tsx state:
isDragging, dragStart, initialAnnPos, localDragState, selectedAnnotationId
and the cached dragRectRef. -/
structure DragState where
  isDragging : Bool
  dragStart : ℚ × ℚ
  initialAnnPos : ℚ × ℚ
  localDragState : Option (String × ℚ × ℚ)
  selectedAnnotationId : Option String
  dragRect : Option Rect
  deriving DecidableEq

/-- handlePointerMove from src/components/DashboardCanvas.tsx: when a drag
is active with a selected annotation and a cached rect, store the computed
position in localDragState; otherwise do nothing. -/
def handlePointerMove (ds : DragState) (client : ℚ × ℚ) : DragState :=
  match ds.isDragging, ds.selectedAnnotationId, ds.dragRect with
  | true, some sid, some rect =>
    let p := pointerMovePosition rect ds.initialAnnPos ds.dragStart client
    { ds with localDragState := some (sid, p.1, p.2) }
  | _, _, _ => ds

/-- handlePointerUp from src/components/DashboardCanvas.tsx: when a drag is
active with a live position and a selected id, commit the live x and y to
the matching annotation; in every case clear isDragging, localDragState and
the cached rect. -/
def handlePointerUp (ds : DragState) (annotations : List Annotation ) :
    DragState × List Annotation :=
  let committed :=
    match ds.isDragging, ds.localDragState, ds.selectedAnnotationId with
    | true, some l, some sid =>
      annotations.map (fun a =>
        if a.id == sid then { a with x := l.2.1, y := l.2.2 } else a)
    | _, _, _ => annotations
  ({ ds with isDragging := false, localDragState := none, dragRect := none },
   committed)

/-- The component wires the onPointerCancel prop of the annotation wrapper
to the same handler as onPointerUp (src/components/DashboardCanvas.tsx). -/
def handlePointerCancel (ds : DragState) (annotations : List Annotation ) :
    DragState × List Annotation :=
  handlePointerUp ds annotations

/-- One canvas 2d drawing call issued by the export compositor. -/
inductive DrawOp where
  | fillRect (x y w h : ℚ) (color : String)
  | drawImage (x y : ℚ)
  | fillText (text : String) (x y : ℚ) (fontStyle fontWeight : String)
      (fontSize : ℚ) (color : String)
  deriving DecidableEq

/-- The decoded base image, exposing its native pixel dimensions. -/
structure CanvasImage where
  naturalWidth : ℚ
  naturalHeight : ℚ
  deriving DecidableEq

/-- The fillText call generateCanvas issues for one annotation: percentage
position scaled to native pixels, font size scaled by width over 800 with a
floor of 12, missing style flags defaulting to normal. -/
def annotationDrawOp (w h : ℚ) (a : Annotation ) : DrawOp :=
  let x := a.x / 100 * w
  let y := a.y / 100 * h
  let scaleFactor := w / 800
  let fontSize := max 12 (a.fontSize * scaleFactor)
  DrawOp.fillText a.text x y (a.fontStyle.getD "normal")
    (a.fontWeight.getD "normal") fontSize a.color

/-- generateCanvas from src/components/DashboardCanvas.tsx as the sequence
of drawing calls it issues: an optional white background fill, the base
image at the origin, then one fillText per annotation in store order.  The
comments list is in scope in the component but never drawn. -/
def generateCanvas (img : CanvasImage) (annotations : List Annotation )
    (comments : List Comment) (fillBackground : Bool) : List DrawOp :=
  (if fillBackground then
    [DrawOp.fillRect 0 0 img.naturalWidth img.naturalHeight "#ffffff"]
   else []) ++
  DrawOp.drawImage 0 0 ::
    annotations.map (annotationDrawOp img.naturalWidth img.naturalHeight)

/-- The three export formats offered by handleExport. -/
inductive ExportFormat where
  | png
  | jpg
  | pdf
  deriving DecidableEq

/-- handleExport from src/components/DashboardCanvas.tsx: jpg and pdf
request the opaque background, png does not; the drawn content is whatever
generateCanvas produces. -/
def handleExport (img : CanvasImage) (annotations : List Annotation )
    (comments : List Comment) (format : ExportFormat) : List DrawOp :=
  let withBackground := format == ExportFormat.jpg || format == ExportFormat.pdf
  generateCanvas img annotations comments withBackground

/-- Sample annotations used as concrete inputs. -/
def annA : Annotation :=
  { id := "a", x := 10, y := 10, text := "A", color := "#111111",
    fontSize := 20, fontWeight := none, fontStyle := none }

def annB : Annotation :=
  { id := "b", x := 20, y := 20, text := "B", color := "#222222",
    fontSize := 20, fontWeight := some "bold", fontStyle := none }

def annC : Annotation :=
  { id := "c", x := 30, y := 30, text := "C", color := "#333333",
    fontSize := 24, fontWeight := none, fontStyle := some "italic" }

theorem findIndex_some_getElem {p : α → Bool} {l : List α} {i : ℕ}
    (h : findIndex p l = some i) : ∃ a, l[i]? = some a ∧ p a = true := by
  induction l generalizing i with
  | nil => simp [findIndex] at h
  | cons a l ih =>
    by_cases hpa : p a
    · simp [findIndex, hpa] at h
      subst h
      exact ⟨a, by simp, hpa⟩
    · simp [findIndex, hpa] at h
      obtain ⟨j, hj, rfl⟩ := h
      obtain ⟨b, hb, hpb⟩ := ih hj
      exact ⟨b, by simpa using hb, hpb⟩

theorem findIndex_eq_none {p : α → Bool} {l : List α}
    (h : findIndex p l = none) : ∀ a ∈ l, p a = false := by
  induction l with
  | nil => simp
  | cons x xs ih =>
    by_cases hpx : p x
    · simp [findIndex, hpx] at h
    · simp [findIndex, hpx] at h
      intro a ha
      rcases List.mem_cons.mp ha with rfl | ha
      · simpa using hpx
      · exact ih h a ha

theorem getElem?_some_lt {l : List α} {i : ℕ} {a : α} (h : l[i]? = some a) :
    i < l.length := by
  by_contra hlt
  rw [List.getElem?_eq_none (Nat.le_of_not_lt hlt)] at h
  cases h

theorem perm_eraseIdx_append {l : List α} {i : ℕ} {a : α}
    (h : l[i]? = some a) : l.Perm (l.eraseIdx i ++ [a]) := by
  induction l generalizing i with
  | nil => simp at h
  | cons x xs ih =>
    cases i with
    | zero =>
      rw [List.getElem?_cons_zero] at h
      injection h with h
      subst h
      simpa [List.eraseIdx] using (List.perm_append_singleton x xs).symm
    | succ i =>
      rw [List.getElem?_cons_succ] at h
      simpa [List.eraseIdx] using (ih h).cons x

theorem perm_cons_eraseIdx {l : List α} {i : ℕ} {a : α}
    (h : l[i]? = some a) : l.Perm (a :: l.eraseIdx i) := by
  induction l generalizing i with
  | nil => simp at h
  | cons x xs ih =>
    cases i with
    | zero =>
      rw [List.getElem?_cons_zero] at h
      injection h with h
      subst h
      exact List.Perm.refl _
    | succ i =>
      rw [List.getElem?_cons_succ] at h
      exact ((ih h).cons x).trans (List.Perm.swap a x _)

theorem swapAdj_perm (l : List α) (i : ℕ) : (swapAdj l i).Perm l := by
  induction l generalizing i with
  | nil => cases i <;> exact List.Perm.refl _
  | cons x xs ih =>
    cases i with
    | zero =>
      cases xs with
      | nil => exact List.Perm.refl _
      | cons y ys => exact List.Perm.swap x y ys
    | succ i => simpa [swapAdj] using (ih i).cons x

theorem swapAdj_swapAdj (l : List α) (i : ℕ) : swapAdj (swapAdj l i) i = l := by
  induction l generalizing i with
  | nil => cases i <;> rfl
  | cons x xs ih =>
    cases i with
    | zero =>
      cases xs with
      | nil => rfl
      | cons y ys => rfl
    | succ i => simp [swapAdj, ih]

theorem findIndex_swapAdj {p : α → Bool} {l : List α} {i : ℕ}
    (hf : findIndex p l = some i) (hlt : i + 1 < l.length)
    (hsucc : ∀ b, l[i + 1]? = some b → p b = false) :
    findIndex p (swapAdj l i) = some (i + 1) := by
  induction l generalizing i with
  | nil => simp [findIndex] at hf
  | cons x xs ih =>
    by_cases hpx : p x
    · simp [findIndex, hpx] at hf
      subst hf
      cases xs with
      | nil => simp at hlt
      | cons y ys =>
        have hpy : p y = false := hsucc y (by simp)
        simp [swapAdj, findIndex, hpy, hpx]
    · simp [findIndex, hpx] at hf
      obtain ⟨j, hj, rfl⟩ := hf
      have hlt' : j + 1 < xs.length := by simpa using hlt
      have hsucc' : ∀ b, xs[j + 1]? = some b → p b = false := fun b hb =>
        hsucc b (by simpa using hb)
      simp [swapAdj, findIndex, hpx, ih hj hlt' hsucc']

theorem filter_eraseIdx {p : α → Bool} {l : List α} {i : ℕ} {a : α}
    (h : l[i]? = some a) (hpa : p a = false) :
    (l.eraseIdx i).filter p = l.filter p := by
  induction l generalizing i with
  | nil => simp at h
  | cons x xs ih =>
    cases i with
    | zero =>
      rw [List.getElem?_cons_zero] at h
      injection h with h
      subst h
      simp [List.eraseIdx, List.filter_cons, hpa]
    | succ i =>
      rw [List.getElem?_cons_succ] at h
      simp [List.eraseIdx, List.filter_cons, ih h]

theorem eq_append_of_getElem_last {l : List α} {i : ℕ} {b : α}
    (h : l[i]? = some b) (hlen : i + 1 = l.length) :
    ∃ l', l = l' ++ [b] := by
  induction l generalizing i with
  | nil => simp at h
  | cons x xs ih =>
    cases i with
    | zero =>
      rw [List.getElem?_cons_zero] at h
      injection h with h
      subst h
      have hx : xs = [] := by
        have hz : xs.length = 0 := by simpa using hlen.symm
        exact List.length_eq_zero.mp hz
      subst hx
      exact ⟨[], rfl⟩
    | succ i =>
      rw [List.getElem?_cons_succ] at h
      have hlen' : i + 1 = xs.length := by simpa using hlen
      obtain ⟨l', rfl⟩ := ih h hlen'
      exact ⟨x :: l', rfl⟩

/-- C10: every z-order operation (bringToFront, sendToBack, moveForward,
moveBackward), for every annotation list and every id, returns a permutation
of the input list: exactly the same annotation elements, none added,
removed, duplicated or modified. -/
theorem zOrder_ops_perm (id : String) (l : List Annotation ) :
    (bringToFront id l).Perm l ∧ (moveForward id l).Perm l ∧
    (moveBackward id l).Perm l ∧ (sendToBack id l).Perm l := by
  refine ⟨?_, ?_, ?_, ?_⟩
  · cases hf : findIndex (fun a => a.id == id) l with
    | none => simp [bringToFront, hf]
    | some i =>
      by_cases hl : i + 1 = l.length
      · simp [bringToFront, hf, hl]
      · cases hg : l[i]? with
        | none =>
          simp [bringToFront, hf, hl, hg]
        | some item =>
          simp only [bringToFront, hf, if_neg hl, List.get?_eq_getElem?, hg]
          exact (perm_eraseIdx_append hg).symm
  · cases hf : findIndex (fun a => a.id == id) l with
    | none => simp [moveForward, hf]
    | some i =>
      by_cases hl : i + 1 = l.length
      · simp [moveForward, hf, hl]
      · simp only [moveForward, hf, if_neg hl]
        exact swapAdj_perm l i
  · cases hf : findIndex (fun a => a.id == id) l with
    | none => simp [moveBackward, hf]
    | some i =>
      cases i with
      | zero => simp [moveBackward, hf]
      | succ i =>
        simp only [moveBackward, hf]
        exact swapAdj_perm l i
  · cases hf : findIndex (fun a => a.id == id) l with
    | none => simp [sendToBack, hf]
    | some i =>
      cases i with
      | zero => simp [sendToBack, hf]
      | succ i =>
        cases hg : l[i + 1]? with
        | none => simp [sendToBack, hf, hg]
        | some item =>
          simp only [sendToBack, hf, List.get?_eq_getElem?, hg]
          exact (perm_cons_eraseIdx hg).symm

/-- C4 counterexample: with the id at the last position, moveForward is a
no-op but moveBackward still swaps, so the round trip does not restore the
original order.  Here the list is two annotations and the id is the last
one: the claim, as stated for every present id, is false. -/
theorem moveForward_moveBackward_not_inverse :
    moveBackward "b" (moveForward "b" [annA, annB]) ≠ [annA, annB] := by
  decide

/-- C4 amended: for every annotation list with pairwise-distinct ids and
every id matched at a position that is not the last, moveForward followed by
moveBackward with no other mutation in between returns the list to exactly
its original order. -/
theorem moveForward_moveBackward_inverse (id : String) (l : List Annotation )
    (i : ℕ) (hnd : (l.map Annotation.id).Nodup)
    (hf : findIndex (fun a => a.id == id) l = some i)
    (hlt : i + 1 < l.length) :
    moveBackward id (moveForward id l) = l := by
  have hne : ¬ i + 1 = l.length := Nat.ne_of_lt hlt
  obtain ⟨a, hga, hpa⟩ := findIndex_some_getElem hf
  have hsucc : ∀ b, l[i + 1]? = some b → (b.id == id) = false := by
    intro b hgb
    by_contra hb
    have hbid : b.id = id := by simpa using hb
    have haid : a.id = id := by simpa using hpa
    have h1 : (l.map Annotation.id)[i]? = some id := by
      rw [List.getElem?_map, hga]
      simp [haid]
    have h2 : (l.map Annotation.id)[i + 1]? = some id := by
      rw [List.getElem?_map, hgb]
      simp [hbid]
    have : i = i + 1 :=
      List.getElem?_inj (getElem?_some_lt h1) hnd (h1.trans h2.symm)
    omega
  have hmf : moveForward id l = swapAdj l i := by simp [moveForward, hf, hne]
  have hfi : findIndex (fun a => a.id == id) (swapAdj l i) = some (i + 1) :=
    findIndex_swapAdj hf hlt hsucc
  rw [hmf]
  simp [moveBackward, hfi, swapAdj_swapAdj]

/-- C4 witness: the amended round trip at a concrete in-range input. -/
theorem moveForward_moveBackward_inverse_witness :
    moveBackward "a" (moveForward "a" [annA, annB, annC]) = [annA, annB, annC] :=
  moveForward_moveBackward_inverse "a" [annA, annB, annC] 0 (by decide)
    (by decide) (by decide)

theorem bringToFront_filter (id : String) (m : List Annotation ) :
    (bringToFront id m).filter (fun a => !(a.id == id)) =
      m.filter (fun a => !(a.id == id)) := by
  cases hf : findIndex (fun a => a.id == id) m with
  | none => simp [bringToFront, hf]
  | some i =>
    by_cases hl : i + 1 = m.length
    · simp [bringToFront, hf, hl]
    · obtain ⟨b, hgb, hpb⟩ := findIndex_some_getElem hf
      have hpb' : (!(b.id == id)) = false := by simp [hpb]
      have he := filter_eraseIdx (p := fun a => !(a.id == id)) hgb hpb'
      simp only [bringToFront, hf, if_neg hl, List.get?_eq_getElem?, hgb]
      rw [List.filter_append, he]
      simp [hpb']

theorem sendToBack_filter (id : String) (m : List Annotation ) :
    (sendToBack id m).filter (fun a => !(a.id == id)) =
      m.filter (fun a => !(a.id == id)) := by
  cases hf : findIndex (fun a => a.id == id) m with
  | none => simp [sendToBack, hf]
  | some i =>
    cases i with
    | zero => simp [sendToBack, hf]
    | succ i =>
      obtain ⟨b, hgb, hpb⟩ := findIndex_some_getElem hf
      have hpb' : (!(b.id == id)) = false := by simp [hpb]
      have he := filter_eraseIdx (p := fun a => !(a.id == id)) hgb hpb'
      simp only [sendToBack, hf, List.get?_eq_getElem?, hgb]
      rw [List.filter_cons]
      simp [hpb', he]

/-- C5: bringToFront moves the first matching annotation to the end of the
sequence (no-op when the id is not found or already matched at the last
position), the relative order of all annotations with a different id is
unchanged, and bringToFront followed by sendToBack on the same id restores
the original relative order of every annotation with a different id. -/
theorem bringToFront_sendToBack_spec (id : String) (l : List Annotation ) :
    (findIndex (fun a => a.id == id) l = none → bringToFront id l = l) ∧
    (∀ i, findIndex (fun a => a.id == id) l = some i → i + 1 = l.length →
      bringToFront id l = l) ∧
    ((∃ a ∈ l, a.id = id) →
      ∃ l' b, b.id = id ∧ bringToFront id l = l' ++ [b]) ∧
    (bringToFront id l).filter (fun a => !(a.id == id)) =
      l.filter (fun a => !(a.id == id)) ∧
    (sendToBack id (bringToFront id l)).filter (fun a => !(a.id == id)) =
      l.filter (fun a => !(a.id == id)) := by
  refine ⟨?_, ?_, ?_, bringToFront_filter id l, ?_⟩
  · intro h
    simp [bringToFront, h]
  · intro i hf hl
    simp [bringToFront, hf, hl]
  · rintro ⟨a, ha, haid⟩
    cases hf : findIndex (fun x => x.id == id) l with
    | none =>
      exact absurd (findIndex_eq_none hf a ha) (by simp [haid])
    | some i =>
      obtain ⟨b, hgb, hpb⟩ := findIndex_some_getElem hf
      have hbid : b.id = id := by simpa using hpb
      by_cases hl : i + 1 = l.length
      · obtain ⟨l', hl'⟩ := eq_append_of_getElem_last hgb hl
        have hbtf : bringToFront id l = l := by simp [bringToFront, hf, hl]
        exact ⟨l', b, hbid, by rw [hbtf, hl']⟩
      · refine ⟨l.eraseIdx i, b, hbid, ?_⟩
        simp [bringToFront, hf, if_neg hl, hgb]
  · exact (sendToBack_filter id (bringToFront id l)).trans
      (bringToFront_filter id l)

/-- C5 witness: the conditional part of the specification discharged at a
concrete list where the id is present. -/
theorem bringToFront_sendToBack_spec_witness :
    ∃ l' b, b.id = "a" ∧ bringToFront "a" [annA, annB, annC] = l' ++ [b] :=
  (bringToFront_sendToBack_spec "a" [annA, annB, annC]).2.2.1
    ⟨annA, by simp, by decide⟩

theorem map_eq_self_of_fixed {l : List α} {f : α → α}
    (h : ∀ a ∈ l, f a = a) : l.map f = l := by
  induction l with
  | nil => rfl
  | cons x xs ih =>
    rw [List.map_cons, h x (List.mem_cons_self x xs),
      ih fun a ha => h a (List.mem_cons_of_mem x ha)]

/-- Sample history entry used as a concrete input. -/
def sampleEntry : GeneratedImage :=
  { id := "v1", data := "imgdata", prompt := "p", timestamp := 0,
    level := "Operational", style := "Modern SaaS" }

/-- C1 counterexample: with a one-entry history, jumping to the
out-of-range index 5 is not rejected and the cursor does not stay at 0: it
is set to 5, so the claimed IndexOutOfRange rejection does not exist. -/
theorem handleJumpToHistory_out_of_range_not_rejected :
    (([sampleEntry] : List GeneratedImage).length : ℤ) ≤ 5 ∧
    (handleJumpToHistory
      { history := [sampleEntry], currentIndex := 0,
        style := "Modern SaaS", level := "Operational" } 5).currentIndex ≠ 0 := by
  decide

/-- C1 amended: handleJumpToHistory sets the cursor to exactly the given
index for every index, in range or not: an in-range jump lands on that
index, and an out-of-range jump is not rejected either, the cursor simply
takes the out-of-range value; the history list itself is never modified. -/
theorem handleJumpToHistory_sets_cursor (s : EditorHistoryState) (index : ℤ) :
    (handleJumpToHistory s index).currentIndex = index ∧
    (handleJumpToHistory s index).history = s.history := by
  simp only [handleJumpToHistory]
  split <;> simp

/-- Sample annotation sitting at the origin before a drag. -/
def annDrag : Annotation :=
  { id := "a", x := 0, y := 0, text := "A", color := "#000000",
    fontSize := 20, fontWeight := none, fontStyle := none }

/-- An in-progress drag session over annDrag whose live position has moved
to the centre of the canvas. -/
def dsCancel : DragState :=
  { isDragging := true, dragStart := (0, 0), initialAnnPos := (0, 0),
    localDragState := some ("a", 50, 50), selectedAnnotationId := some "a",
    dragRect := some { width := 1000, height := 500, left := 0, top := 0 } }

/-- C2 counterexample: cancelling the gesture does not discard the session
without committing: the committed annotation list changes, and the dragged
annotation takes the live x (50) instead of keeping its pre-drag x (0). -/
theorem pointerCancel_commits :
    (handlePointerCancel dsCancel [annDrag]).2 ≠ [annDrag] ∧
    (handlePointerCancel dsCancel [annDrag]).2.map (fun a => a.x) = [50] ∧
    annDrag.x = 0 := by
  decide

/-- C2 amended: on pointer-cancel the component runs the same handler as on
pointer-up, so for an in-progress session the final livePosition is
committed to the annotation list (the dragged annotation receives the live
x and y) and only then is the session discarded; the list is left unchanged
only when the live position equals the original one. -/
theorem pointerCancel_behaves_like_pointerUp (ds : DragState)
    (annotations : List Annotation ) (lp : String × ℚ × ℚ) (sid : String)
    (h1 : ds.isDragging = true) (h2 : ds.localDragState = some lp)
    (h3 : ds.selectedAnnotationId = some sid) :
    handlePointerCancel ds annotations = handlePointerUp ds annotations ∧
    (handlePointerCancel ds annotations).1.isDragging = false ∧
    (handlePointerCancel ds annotations).1.localDragState = none ∧
    (handlePointerCancel ds annotations).1.dragRect = none ∧
    (handlePointerCancel ds annotations).2 =
      annotations.map (fun a =>
        if a.id == sid then { a with x := lp.2.1, y := lp.2.2 } else a) := by
  refine ⟨rfl, ?_, ?_, ?_, ?_⟩ <;>
    simp [handlePointerCancel, handlePointerUp, h1, h2, h3]

/-- C2 witness: the amended commit-on-cancel behaviour at the concrete
session dsCancel. -/
theorem pointerCancel_behaves_like_pointerUp_witness :
    (handlePointerCancel dsCancel [annDrag]).2 =
      [annDrag].map (fun a =>
        if a.id == "a" then { a with x := 50, y := 50 } else a) :=
  (pointerCancel_behaves_like_pointerUp dsCancel [annDrag] ("a", 50, 50) "a"
    rfl rfl rfl).2.2.2.2

/-- C8: whenever handleGenerate passes its guard it prepends the new image
at index 0 of the history (empty or not) and resets the cursor to 0, and
whenever handleEdit produces a revision (non-empty history with a valid
cursor) it prepends the derived image at index 0 and resets the cursor to
0. -/
theorem pushNewest_spec (isLoading : Bool) (objective : String)
    (history : List GeneratedImage) (currentIndex : ℤ)
    (newImage : GeneratedImage) (editPrompt base64 newId : String) (now : ℤ)
    (hload : isLoading = false) (hobj : jsTrimIsEmpty objective = false) :
    handleGenerate isLoading objective history currentIndex newImage =
      (newImage :: history, 0) ∧
    (handleGenerate isLoading objective history currentIndex newImage).1[0]? =
      some newImage ∧
    (∀ cur, 0 ≤ currentIndex → history.get? currentIndex.toNat = some cur →
      handleEdit history currentIndex editPrompt base64 newId now =
        ({ cur with id := newId, data := base64, prompt := editPrompt,
                    timestamp := now } :: history, 0)) := by
  refine ⟨?_, ?_, ?_⟩
  · simp [handleGenerate, hload, hobj]
  · simp [handleGenerate, hload, hobj]
  · intro cur h0 hcur
    have hcur' : history[currentIndex.toNat]? = some cur := by simpa using hcur
    have hlt : currentIndex.toNat < history.length := getElem?_some_lt hcur'
    have hne : ¬ history.length = 0 := by omega
    simp [handleEdit, hne, h0, hcur']

/-- C8 witness: the generate push on an empty history and the edit push on
a one-entry history, both landing at index 0 with cursor 0. -/
theorem pushNewest_spec_witness :
    handleGenerate false "make a dashboard" [] 0 sampleEntry =
      ([sampleEntry], 0) ∧
    handleEdit [sampleEntry] 0 "tweak" "b64" "v2" 7 =
      ({ sampleEntry with id := "v2", data := "b64", prompt := "tweak",
                          timestamp := 7 } :: [sampleEntry], 0) := by
  constructor
  · exact (pushNewest_spec false "make a dashboard" [] 0 sampleEntry
      "tweak" "b64" "v2" 7 rfl (by decide)).1
  · exact (pushNewest_spec false "make a dashboard" [sampleEntry] 0
      sampleEntry "tweak" "b64" "v2" 7 rfl (by decide)).2.2 sampleEntry
      (by decide) (by decide)

/-- C9: updateAnnotation and deleteAnnotation with an absent id leave the
list unchanged (silent no-op, both are total functions so no error is
raised); with a present id, updateAnnotation keeps the length, leaves every
annotation with a different id unchanged, and on a matching annotation
replaces exactly the fields named in the update object, keeping every field
the update object does not name. -/
theorem updateAnnotation_deleteAnnotation_spec
    (annotations : List Annotation ) (id : String) (u : AnnotationUpdates) :
    ((∀ a ∈ annotations, a.id ≠ id) →
      updateAnnotation annotations id u = annotations ∧
      deleteAnnotation annotations id = annotations) ∧
    ( updateAnnotation annotations id u).length = annotations.length ∧
    (∀ (i : ℕ) (a : Annotation ), annotations[i]? = some a →
      ( updateAnnotation annotations id u)[i]? =
        some (if a.id = id then applyUpdates a u else a)) ∧
    (∀ a : Annotation ,
      (u.id = none → (applyUpdates a u).id = a.id) ∧
      (u.x = none → (applyUpdates a u).x = a.x) ∧
      (u.y = none → (applyUpdates a u).y = a.y) ∧
      (u.text = none → (applyUpdates a u).text = a.text) ∧
      (u.color = none → (applyUpdates a u).color = a.color) ∧
      (u.fontSize = none → (applyUpdates a u).fontSize = a.fontSize) ∧
      (u.fontWeight = none → (applyUpdates a u).fontWeight = a.fontWeight) ∧
      (u.fontStyle = none → (applyUpdates a u).fontStyle = a.fontStyle) ∧
      (∀ v, u.id = some v → (applyUpdates a u).id = v) ∧
      (∀ v, u.x = some v → (applyUpdates a u).x = v) ∧
      (∀ v, u.y = some v → (applyUpdates a u).y = v) ∧
      (∀ v, u.text = some v → (applyUpdates a u).text = v) ∧
      (∀ v, u.color = some v → (applyUpdates a u).color = v) ∧
      (∀ v, u.fontSize = some v → (applyUpdates a u).fontSize = v) ∧
      (∀ v, u.fontWeight = some v → (applyUpdates a u).fontWeight = some v) ∧
      (∀ v, u.fontStyle = some v → (applyUpdates a u).fontStyle = some v)) := by
  refine ⟨?_, by simp [ updateAnnotation], ?_, ?_⟩
  · intro h
    constructor
    · exact map_eq_self_of_fixed fun a ha => by simp [h a ha]
    · exact List.filter_eq_self.mpr fun a ha => by simp [h a ha]
  · intro i a hga
    simp only [ updateAnnotation, List.getElem?_map, hga, Option.map_some']
    by_cases hid : a.id = id <;> simp [hid]
  · intro a
    refine ⟨fun h => by simp [applyUpdates, h], fun h => by simp [applyUpdates, h],
      fun h => by simp [applyUpdates, h], fun h => by simp [applyUpdates, h],
      fun h => by simp [applyUpdates, h], fun h => by simp [applyUpdates, h],
      fun h => by simp [applyUpdates, h], fun h => by simp [applyUpdates, h],
      fun v h => by simp [applyUpdates, h], fun v h => by simp [applyUpdates, h],
      fun v h => by simp [applyUpdates, h], fun v h => by simp [applyUpdates, h],
      fun v h => by simp [applyUpdates, h], fun v h => by simp [applyUpdates, h],
      fun v h => by simp [applyUpdates, h], fun v h => by simp [applyUpdates, h]⟩

/-- A concrete partial update naming only the x field. -/
def uSample : AnnotationUpdates := { x := some 42 }

/-- C9 witness: the silent no-op on a concrete list where the id is
absent. -/
theorem updateAnnotation_deleteAnnotation_spec_witness :
    updateAnnotation [annA, annB] "zzz" uSample = [annA, annB] ∧
    deleteAnnotation [annA, annB] "zzz" = [annA, annB] :=
  ( updateAnnotation_deleteAnnotation_spec [annA, annB] "zzz" uSample).1
    (by decide)

theorem clamp_axis_spec (w s : ℚ) (hw : 0 < w)
    (hs : ∃ m : ℤ, s = GRID_SIZE * m) :
    0 ≤ max 0 (min 100 (s / w * 100)) ∧
    max 0 (min 100 (s / w * 100)) ≤ 100 ∧
    ((∃ k : ℤ, w = GRID_SIZE * k) →
      ∃ m : ℤ, max 0 (min 100 (s / w * 100)) / 100 * w = GRID_SIZE * m) := by
  refine ⟨le_max_left 0 _, max_le (by norm_num) (min_le_left _ _), ?_⟩
  rintro ⟨k, hk⟩
  rcases le_or_lt (s / w * 100) 0 with h0 | h0
  · rw [min_eq_right (h0.trans (by norm_num)), max_eq_left h0]
    exact ⟨0, by norm_num [GRID_SIZE]⟩
  · rcases le_or_lt 100 (s / w * 100) with h100 | h100
    · rw [min_eq_left h100, show max (0 : ℚ) 100 = 100 by norm_num]
      refine ⟨k, ?_⟩
      rw [hk]
      norm_num
    · rw [min_eq_right h100.le, max_eq_right h0.le]
      obtain ⟨m, hm⟩ := hs
      refine ⟨m, ?_⟩
      rw [hm]
      field_simp
      ring

/-- C3 amended: every livePosition produced by a pointer-move lies within 0
to 100 on both axes, and converting it back to pixels at the cached
container size is an exact multiple of the grid size whenever the cached
container dimension on that axis is itself a multiple of the grid size; at
a clamped edge with a non-multiple dimension the pixel value is the raw
container edge, which is why the unconditional claim fails. -/
theorem pointerMove_snap_clamp (rect : Rect)
    (initialAnnPos dragStart client : ℚ × ℚ)
    (hw : 0 < rect.width) (hh : 0 < rect.height) :
    0 ≤ (pointerMovePosition rect initialAnnPos dragStart client).1 ∧
    (pointerMovePosition rect initialAnnPos dragStart client).1 ≤ 100 ∧
    0 ≤ (pointerMovePosition rect initialAnnPos dragStart client).2 ∧
    (pointerMovePosition rect initialAnnPos dragStart client).2 ≤ 100 ∧
    ((∃ k : ℤ, rect.width = GRID_SIZE * k) →
      ∃ m : ℤ, (pointerMovePosition rect initialAnnPos dragStart client).1
        / 100 * rect.width = GRID_SIZE * m) ∧
    ((∃ k : ℤ, rect.height = GRID_SIZE * k) →
      ∃ m : ℤ, (pointerMovePosition rect initialAnnPos dragStart client).2
        / 100 * rect.height = GRID_SIZE * m) := by
  have hpm : pointerMovePosition rect initialAnnPos dragStart client =
      (max 0 (min 100 ((jsRound ((initialAnnPos.1 / 100 * rect.width +
          (client.1 - dragStart.1)) / GRID_SIZE) : ℚ) * GRID_SIZE
          / rect.width * 100)),
       max 0 (min 100 ((jsRound ((initialAnnPos.2 / 100 * rect.height +
          (client.2 - dragStart.2)) / GRID_SIZE) : ℚ) * GRID_SIZE
          / rect.height * 100))) := rfl
  rw [hpm]
  obtain ⟨ha1, ha2, ha3⟩ := clamp_axis_spec rect.width
    ((jsRound ((initialAnnPos.1 / 100 * rect.width +
      (client.1 - dragStart.1)) / GRID_SIZE) : ℚ) * GRID_SIZE)
    hw ⟨_, mul_comm _ _⟩
  obtain ⟨hb1, hb2, hb3⟩ := clamp_axis_spec rect.height
    ((jsRound ((initialAnnPos.2 / 100 * rect.height +
      (client.2 - dragStart.2)) / GRID_SIZE) : ℚ) * GRID_SIZE)
    hh ⟨_, mul_comm _ _⟩
  exact ⟨ha1, ha2, hb1, hb2, ha3, hb3⟩

/-- A container whose dimensions are not multiples of the grid size. -/
def rect95 : Rect := { width := 95, height := 95, left := 0, top := 0 }

/-- C3 counterexample: on a 95-pixel-wide cached container, a drag starting
from x = 100 percent snaps to pixel 100, clamps back to 100 percent, and
converting that livePosition to pixels gives 95, which is not a multiple of
the 10-pixel grid: the unconditional grid-multiple claim is false. -/
theorem pointerMove_pixels_not_grid_multiple :
    0 < rect95.width ∧ 0 < rect95.height ∧
    (pointerMovePosition rect95 (100, 100) (0, 0) (0, 0)).1 = 100 ∧
    ¬ ∃ k : ℤ, (pointerMovePosition rect95 (100, 100) (0, 0) (0, 0)).1
        / 100 * rect95.width = GRID_SIZE * k := by
  have hp : (pointerMovePosition rect95 (100, 100) (0, 0) (0, 0)).1 = 100 := by
    norm_num [pointerMovePosition, rect95, jsRound, GRID_SIZE, min_def, max_def]
  refine ⟨by norm_num [rect95], by norm_num [rect95], hp, ?_⟩
  rintro ⟨k, hk⟩
  rw [hp] at hk
  have hk' : (95 : ℚ) = 10 * (k : ℚ) := by
    rw [show ((100 : ℚ) / 100 * rect95.width) = 95 by norm_num [rect95]] at hk
    rw [show (GRID_SIZE : ℚ) = 10 from rfl] at hk
    exact hk
  have hk2 : (95 : ℤ) = 10 * k := by exact_mod_cast hk'
  omega

/-- The cached container used by the drag-session witnesses. -/
def sampleRect : Rect := { width := 1000, height := 500, left := 0, top := 0 }

/-- C3 witness: the amended bounds and grid property at a concrete
1000 by 500 container, both dimensions multiples of the grid size. -/
theorem pointerMove_snap_clamp_witness :
    0 ≤ (pointerMovePosition sampleRect (10, 10) (0, 0) (50, 25)).1 ∧
    (pointerMovePosition sampleRect (10, 10) (0, 0) (50, 25)).1 ≤ 100 ∧
    0 ≤ (pointerMovePosition sampleRect (10, 10) (0, 0) (50, 25)).2 ∧
    (pointerMovePosition sampleRect (10, 10) (0, 0) (50, 25)).2 ≤ 100 ∧
    ((∃ k : ℤ, sampleRect.width = GRID_SIZE * k) →
      ∃ m : ℤ, (pointerMovePosition sampleRect (10, 10) (0, 0) (50, 25)).1
        / 100 * sampleRect.width = GRID_SIZE * m) ∧
    ((∃ k : ℤ, sampleRect.height = GRID_SIZE * k) →
      ∃ m : ℤ, (pointerMovePosition sampleRect (10, 10) (0, 0) (50, 25)).2
        / 100 * sampleRect.height = GRID_SIZE * m) :=
  pointerMove_snap_clamp sampleRect (10, 10) (0, 0) (50, 25)
    (by norm_num [sampleRect]) (by norm_num [sampleRect])

/-- C6: for every overlay state and every export format, the compositor
output is independent of the comments list (no comment is ever drawn) and
consists of the optional opaque background, the base image at the origin,
then exactly one text op per annotation in store order, each at pixel
position ((x/100) times the native width, (y/100) times the native
height), so later entries draw on top. -/
theorem export_draws_annotations_only (img : CanvasImage)
    (annotations : List Annotation ) (comments comments' : List Comment)
    (format : ExportFormat) :
    handleExport img annotations comments format =
      handleExport img annotations comments' format ∧
    handleExport img annotations comments format =
      (if format = ExportFormat.jpg ∨ format = ExportFormat.pdf then
        [DrawOp.fillRect 0 0 img.naturalWidth img.naturalHeight "#ffffff"]
       else []) ++
      DrawOp.drawImage 0 0 ::
        annotations.map (fun a =>
          DrawOp.fillText a.text (a.x / 100 * img.naturalWidth)
            (a.y / 100 * img.naturalHeight) (a.fontStyle.getD "normal")
            (a.fontWeight.getD "normal")
            (max 12 (a.fontSize * (img.naturalWidth / 800))) a.color) := by
  refine ⟨rfl, ?_⟩
  cases format <;> simp [handleExport, generateCanvas, annotationDrawOp]

/-- Projection returning the font size of a text drawing call. -/
def fontSizeOf : DrawOp → ℚ
  | DrawOp.fillText _ _ _ _ _ fs _ => fs
  | _ => 0

/-- A small annotation whose scaled export size falls under the floor. -/
def annSmall : Annotation :=
  { id := "s", x := 50, y := 50, text := "T", color := "#000000",
    fontSize := 20, fontWeight := none, fontStyle := none }

/-- C7 counterexample: at native width 100 the claimed size is
20 times 100/800, that is 5/2, but the compositor floors the size at 12, so
the drawn size is 12, not the pure ratio. -/
theorem export_fontSize_not_pure_ratio :
    fontSizeOf (annotationDrawOp 100 100 annSmall) = 12 ∧
    annSmall.fontSize * (100 / 800) = 5 / 2 ∧ (12 : ℚ) ≠ 5 / 2 := by
  refine ⟨?_, by norm_num [annSmall], by norm_num⟩
  norm_num [fontSizeOf, annotationDrawOp, annSmall, max_def]

/-- C7 amended: the text op drawn for an annotation appears in the
compositor output with font size max 12 (fontSize times width/800): the
size equals the claimed pure ratio fontSize times width/800 exactly when
that product is at least 12, and is floored at 12 otherwise. -/
theorem export_fontSize_scaled_with_floor (img : CanvasImage)
    (annotations : List Annotation ) (comments : List Comment) (fb : Bool)
    (a : Annotation ) (ha : a ∈ annotations) :
    annotationDrawOp img.naturalWidth img.naturalHeight a ∈
      generateCanvas img annotations comments fb ∧
    fontSizeOf (annotationDrawOp img.naturalWidth img.naturalHeight a) =
      max 12 (a.fontSize * (img.naturalWidth / 800)) ∧
    (12 ≤ a.fontSize * (img.naturalWidth / 800) →
      fontSizeOf (annotationDrawOp img.naturalWidth img.naturalHeight a) =
        a.fontSize * (img.naturalWidth / 800)) := by
  refine ⟨?_, by simp [annotationDrawOp, fontSizeOf], ?_⟩
  · simp only [generateCanvas, List.mem_append, List.mem_cons]
    right
    right
    exact List.mem_map_of_mem _ ha
  · intro h
    simp [annotationDrawOp, fontSizeOf, max_eq_right h]

/-- A wide native canvas whose scale factor is 2. -/
def imgWide : CanvasImage := { naturalWidth := 1600, naturalHeight := 900 }

/-- C7 witness: at native width 1600 the product 20 times 2 is 40, at least
12, and is used exactly. -/
theorem export_fontSize_scaled_with_floor_witness :
    fontSizeOf (annotationDrawOp imgWide.naturalWidth imgWide.naturalHeight
      annSmall) = annSmall.fontSize * (imgWide.naturalWidth / 800) :=
  (export_fontSize_scaled_with_floor imgWide [annSmall] [] false annSmall
    (by simp)).2.2 (by norm_num [annSmall, imgWide])

end IntakeToInsight
